import Mathlib

/-!
Shallow embedding of the mlcache multi-level cache orchestrator
(Go package mlcache: NewMultiLevelCache, cacher.Get / Put / Del /
IsPresent, validator.validate, and package errs: New / Build).

Modelling conventions:
- Backends (the external Cacher implementations plugged in as levels)
  are records of state transformers over an abstract per-level state
  type sigma, one state value per level.
- Go errors are Option String (none = nil error).
- The Go conversion uint8(len(caches)) truncates, so the level count is
  taken mod 256.
- A Go nil-pointer panic (errs.Build dereferencing a nil error, or the
  orchestrator dereferencing a nil chain node) is modelled by the
  orchestrator operation returning Option.none.
- Every orchestrator operation additionally returns the updated list of
  levels together with a ghost trace of the synchronous calls it issued
  to the levels (numbered 1..N); the trace is instrumentation used to
  state frame properties and does not influence any result.
- Asynchronous fire-and-forget work in the source (CacheAside backfill
  goroutine, WriteBack delayed propagation goroutine, Flush) is not part
  of the synchronous return value in the source and is likewise not part
  of the synchronous semantics here.
-/

namespace Mlcache

abbrev Key := String
abbrev Val := String
abbrev Time := Nat
abbrev Err := Option String

/-- Error messages declared as constants in the mlcache package. -/
def NoWorkableCacheFound : String := "No workable cache found"

def MaxCacheLevelExceeded : String := "Max cache level exceeded"

def MaxValLenExceeded : String := "Max val len exceeded"

def InvalidReadPattern : String := "Invalid read pattern"

def InvalidWritePattern : String := "Invalid write pattern"

def GetError : String := "Get error"

def PutError : String := "Put error"

def DelError : String := "Del error"

def IsPresentError : String := "IsPresent error"

/-- ReadPattern constants (Go iota): ReadThrough, CacheAside, endR. -/
def ReadThrough : Nat := 0

def CacheAside : Nat := 1

def endR : Nat := 2

/-- WritePattern constants (Go iota): WriteThrough, WriteAround, WriteBack, endW. -/
def WriteThrough : Nat := 0

def WriteAround : Nat := 1

def WriteBack : Nat := 2

def endW : Nat := 3

/-- Max number of cache levels allowed in the system. -/
def maxCaches : Nat := 5

/-- errs.New: creates a new error from a message, nil when the message is empty. -/
def errsNew (userMessage : String) : Err :=
  if userMessage = "" then none else some userMessage

/-- errs.Build: appends a user message to an error. The Go code evaluates
err.Error() whenever the message is non-empty, so a nil err there is a
nil-pointer dereference: modelled as the outer none (panic). -/
def errsBuild (err : Err) (userMessage : String) : Option Err :=
  if userMessage = "" then some err
  else
    match err with
    | some e => some (some (e ++ "; " ++ userMessage))
    | none => none

/-- The Level Capability contract (the Cacher interface seen from the
orchestrator): each operation of a backend, as a state transformer on
that backend's own state. The Flush member mirrors the interface; the
orchestrator only launches it asynchronously. -/
structure LevelOps (σ : Type) where
  get : σ → Key → (Option Val × Time × Err) × σ
  put : σ → Key → Option Val → Time → (Bool × Err) × σ
  del : σ → Key → (Bool × Err) × σ
  isPresent : σ → Key → (Bool × Err) × σ
  flush : σ → Err × σ

/-- One plugged-in backend: its operations together with its current state. -/
structure Level (σ : Type) where
  ops : LevelOps σ
  st : σ

/-- The cacher struct: the chain of levels (head = l1Cache, last =
lnCache), the truncated level count, the selected patterns and the value
size cutoff. Patterns are the uint8 values of the Go enums. -/
structure MLCacher (σ : Type) where
  levels : List (Level σ)
  numCaches : Nat
  readPattern : Nat
  writePattern : Nat
  maxValSize : Int

/-- validator.validate: checks the (uint8) level count and the two patterns. -/
def validate (numCaches : Nat) (readPattern : Nat) (writePattern : Nat) : Err :=
  if numCaches = 0 then errsNew NoWorkableCacheFound
  else if numCaches > maxCaches then errsNew MaxCacheLevelExceeded
  else if readPattern ≥ endR then errsNew InvalidReadPattern
  else if writePattern ≥ endW then errsNew InvalidWritePattern
  else none

/-- NewMultiLevelCache: validates, then builds the chain from the first
numCaches supplied backends (the Go loop wires nodes for indices
0..numCaches-1, where numCaches = uint8(len(caches)) truncates mod 256). -/
def NewMultiLevelCache {σ : Type} (readPattern : Nat) (writePattern : Nat)
    (maxValSize : Int) (caches : List (Level σ)) : Except String (MLCacher σ) :=
  let numCaches := caches.length % 256
  match validate numCaches readPattern writePattern with
  | some e => Except.error e
  | none =>
      Except.ok
        { levels := caches.take numCaches
          numCaches := numCaches
          readPattern := readPattern
          writePattern := writePattern
          maxValSize := maxValSize }

/-- Ghost trace entries: one per synchronous call the orchestrator issues
to a level; levels are numbered 1..N. -/
inductive CacheEvent where
  | getE (level : Nat) (key : Key)
  | putE (level : Nat) (key : Key) (val : Option Val) (ttl : Time)
  | delE (level : Nat) (key : Key)
  | isPresentE (level : Nat) (key : Key)
  deriving Repr, DecidableEq

/-- One Get call against a single level, threading that level's state. -/
def getStep {σ : Type} (l : Level σ) (k : Key) : (Option Val × Time × Err) × Level σ :=
  let r := l.ops.get l.st k
  (r.1, ⟨l.ops, r.2⟩)

/-- One Put call against a single level, threading that level's state. -/
def putStep {σ : Type} (l : Level σ) (k : Key) (v : Option Val) (t : Time) :
    (Bool × Err) × Level σ :=
  let r := l.ops.put l.st k v t
  (r.1, ⟨l.ops, r.2⟩)

/-- One Del call against a single level, threading that level's state. -/
def delStep {σ : Type} (l : Level σ) (k : Key) : (Bool × Err) × Level σ :=
  let r := l.ops.del l.st k
  (r.1, ⟨l.ops, r.2⟩)

/-- One IsPresent call against a single level, threading that level's state. -/
def isPresentStep {σ : Type} (l : Level σ) (k : Key) : (Bool × Err) × Level σ :=
  let r := l.ops.isPresent l.st k
  (r.1, ⟨l.ops, r.2⟩)

/-- The size check in cacher.Put: val != nil && val.Len() > ca.maxValSize. -/
def oversize (val : Option Val) (maxValSize : Int) : Bool :=
  match val with
  | none => false
  | some v => decide (maxValSize < (v.length : Int))

/-- The WriteThrough loop of cacher.Put: put in all cache levels from
level i onward; the first level whose put returns a non-nil error or
failure status aborts with errs.Build(err, PutError). The outer none is
the Build panic on a nil error. -/
def writeThroughAux {σ : Type} (k : Key) (v : Option Val) (t : Time) :
    List (Level σ) → Nat → Option (Bool × Err × List (Level σ) × List CacheEvent)
  | [], _ => some (true, none, [], [])
  | l :: rest, i =>
    let s := putStep l k v t
    if (s.1.2).isSome ∨ s.1.1 = false then
      (errsBuild s.1.2 PutError).map
        (fun e => (false, e, s.2 :: rest, [CacheEvent.putE i k v t]))
    else
      (writeThroughAux k v t rest (i + 1)).map
        (fun r => (r.1, r.2.1, s.2 :: r.2.2.1, CacheEvent.putE i k v t :: r.2.2.2))

/-- cacher.Put: nil-key check, size check, then the selected write pattern.
WriteAround puts only to the last level (lnCache), WriteBack puts
synchronously only to the first level (l1Cache); a write pattern outside
the enum falls through the switch and returns success. -/
def cacherPut {σ : Type} (ca : MLCacher σ) (key : Option Key) (val : Option Val)
    (ttl : Time) : Option (Bool × Err × List (Level σ) × List CacheEvent) :=
  match key with
  | none => some (false, errsNew PutError, ca.levels, [])
  | some k =>
    if oversize val ca.maxValSize then
      some (false, errsNew MaxValLenExceeded, ca.levels, [])
    else if ca.writePattern = WriteThrough then
      writeThroughAux k val ttl ca.levels 1
    else if ca.writePattern = WriteAround then
      match ca.levels.getLast? with
      | none => none
      | some l =>
        let s := putStep l k val ttl
        let lvls := ca.levels.dropLast ++ [s.2]
        if (s.1.2).isSome ∨ s.1.1 = false then
          (errsBuild s.1.2 PutError).map
            (fun e => (false, e, lvls, [CacheEvent.putE ca.levels.length k val ttl]))
        else
          some (true, none, lvls, [CacheEvent.putE ca.levels.length k val ttl])
    else if ca.writePattern = WriteBack then
      match ca.levels with
      | [] => none
      | l :: rest =>
        let s := putStep l k val ttl
        if (s.1.2).isSome ∨ s.1.1 = false then
          (errsBuild s.1.2 PutError).map
            (fun e => (false, e, s.2 :: rest, [CacheEvent.putE 1 k val ttl]))
        else
          some (true, none, s.2 :: rest, [CacheEvent.putE 1 k val ttl])
    else
      some (true, none, ca.levels, [])

/-- The synchronous backfill loop of the ReadThrough branch of cacher.Get:
puts the found value into the given levels (the prev chain of the hit
node, i.e. levels i, i-1, ..., 1 in that order); a put returning a
non-nil error or failure status aborts, and the read returns that put's
error unchanged (no Build, so no panic on this path). The first
component is some err when the backfill aborted with error err. -/
def backfillRev {σ : Type} (k : Key) (v : Val) (t : Time) :
    List (Level σ) → Nat → Option Err × List (Level σ) × List CacheEvent
  | [], _ => (none, [], [])
  | l :: rest, i =>
    let s := putStep l k (some v) t
    if (s.1.2).isSome ∨ s.1.1 = false then
      (some s.1.2, s.2 :: rest, [CacheEvent.putE i k (some v) t])
    else
      let r := backfillRev k v t rest (i - 1)
      (r.1, s.2 :: r.2.1, CacheEvent.putE i k (some v) t :: r.2.2)

/-- The ReadThrough scan of cacher.Get: looks the key up level by level
from level i; acc holds the already-missed nearer levels in reverse
order (head = level i-1). On a hit (non-nil value, the level's get error
is discarded) it synchronously backfills all nearer levels and, if any
backfill fails, returns nil value and the backfill's error; on a miss at
every level returns nil value and nil error. -/
def readThroughAux {σ : Type} (k : Key) (now : Time) :
    List (Level σ) → List (Level σ) → Nat →
    (Option Val × Time × Err) × List (Level σ) × List CacheEvent
  | acc, [], _ => ((none, now, none), acc.reverse, [])
  | acc, l :: rest, i =>
    let s := getStep l k
    match s.1.1 with
    | some v =>
      let b := backfillRev k v s.1.2.1 acc (i - 1)
      let lvls := b.2.1.reverse ++ s.2 :: rest
      (match b.1 with
        | some err => ((none, now, err), lvls, CacheEvent.getE i k :: b.2.2)
        | none => ((some v, s.1.2.1, none), lvls, CacheEvent.getE i k :: b.2.2))
    | none =>
      let r := readThroughAux k now (s.2 :: acc) rest (i + 1)
      (r.1, r.2.1, CacheEvent.getE i k :: r.2.2)

/-- The CacheAside scan of cacher.Get: same lookup order, but on a hit the
value is returned immediately and the backfill happens in a detached
goroutine, so it has no synchronous effect on the levels and issues no
synchronous call. -/
def cacheAsideAux {σ : Type} (k : Key) (now : Time) :
    List (Level σ) → List (Level σ) → Nat →
    (Option Val × Time × Err) × List (Level σ) × List CacheEvent
  | acc, [], _ => ((none, now, none), acc.reverse, [])
  | acc, l :: rest, i =>
    let s := getStep l k
    match s.1.1 with
    | some v => ((some v, s.1.2.1, none), acc.reverse ++ s.2 :: rest, [CacheEvent.getE i k])
    | none =>
      let r := cacheAsideAux k now (s.2 :: acc) rest (i + 1)
      (r.1, r.2.1, CacheEvent.getE i k :: r.2.2)

/-- cacher.Get: nil-key check, then the selected read pattern; a read
pattern outside the enum falls through the switch and returns nil value
and nil error. -/
def cacherGet {σ : Type} (ca : MLCacher σ) (key : Option Key) (now : Time) :
    (Option Val × Time × Err) × List (Level σ) × List CacheEvent :=
  match key with
  | none => ((none, now, errsNew GetError), ca.levels, [])
  | some k =>
    if ca.readPattern = ReadThrough then readThroughAux k now [] ca.levels 1
    else if ca.readPattern = CacheAside then cacheAsideAux k now [] ca.levels 1
    else ((none, now, none), ca.levels, [])

/-- The loop of cacher.Del, which walks the chain from lnCache backward:
the argument list is the chain reversed (head = level i = level N going
down); the first level whose del returns a non-nil error or failure
status aborts with errs.Build(err, DelError). The outer none is the
Build panic on a nil error. -/
def delAuxRev {σ : Type} (k : Key) :
    List (Level σ) → Nat → Option (Bool × Err × List (Level σ) × List CacheEvent)
  | [], _ => some (true, none, [], [])
  | l :: rest, i =>
    let s := delStep l k
    if (s.1.2).isSome ∨ s.1.1 = false then
      (errsBuild s.1.2 DelError).map
        (fun e => (false, e, s.2 :: rest, [CacheEvent.delE i k]))
    else
      (delAuxRev k rest (i - 1)).map
        (fun r => (r.1, r.2.1, s.2 :: r.2.2.1, CacheEvent.delE i k :: r.2.2.2))

/-- cacher.Del: nil-key check, then delete from level N down to level 1.
The level list of the result is restored to chain order. -/
def cacherDel {σ : Type} (ca : MLCacher σ) (key : Option Key) :
    Option (Bool × Err × List (Level σ) × List CacheEvent) :=
  match key with
  | none => some (false, errsNew DelError, ca.levels, [])
  | some k =>
    (delAuxRev k ca.levels.reverse ca.levels.length).map
      (fun r => (r.1, r.2.1, r.2.2.1.reverse, r.2.2.2))

/-- cacher.IsPresent: nil-key check, then checks only the level 1 cache;
a non-nil error or failure status is wrapped with errs.Build. The outer
none is the Build panic on a nil error (or the nil chain dereference). -/
def cacherIsPresent {σ : Type} (ca : MLCacher σ) (key : Option Key) :
    Option (Bool × Err × List (Level σ) × List CacheEvent) :=
  match key with
  | none => some (false, errsNew IsPresentError, ca.levels, [])
  | some k =>
    match ca.levels with
    | [] => none
    | l :: rest =>
      let s := isPresentStep l k
      if (s.1.2).isSome ∨ s.1.1 = false then
        (errsBuild s.1.2 IsPresentError).map
          (fun e => (false, e, s.2 :: rest, [CacheEvent.isPresentE 1 k]))
      else
        some (true, none, s.2 :: rest, [CacheEvent.isPresentE 1 k])

/-- Ascending run of trace events: f i, f (i+1), ..., n entries. -/
def ascEvents (f : Nat → CacheEvent) : Nat → Nat → List CacheEvent
  | _, 0 => []
  | i, n + 1 => f i :: ascEvents f (i + 1) n

/-- Descending run of trace events: f i, f (i-1), ..., n entries. -/
def descEvents (f : Nat → CacheEvent) : Nat → Nat → List CacheEvent
  | _, 0 => []
  | i, n + 1 => f i :: descEvents f (i - 1) n

/-- A level's put call succeeds: success status and nil error. -/
def putOk {σ : Type} (l : Level σ) (k : Key) (v : Option Val) (t : Time) : Prop :=
  (putStep l k v t).1 = (true, none)

/-- A level's del call succeeds: success status and nil error. -/
def delOk {σ : Type} (l : Level σ) (k : Key) : Prop :=
  (delStep l k).1 = (true, none)

/-- A level's get call misses: nil value (its error is irrelevant). -/
def getMiss {σ : Type} (l : Level σ) (k : Key) : Prop :=
  (getStep l k).1.1 = none

/-- The level after a put call. -/
def putUpd {σ : Type} (l : Level σ) (k : Key) (v : Option Val) (t : Time) : Level σ :=
  (putStep l k v t).2

/-- The level after a get call. -/
def getUpd {σ : Type} (l : Level σ) (k : Key) : Level σ :=
  (getStep l k).2

/-- The level after a del call. -/
def delUpd {σ : Type} (l : Level σ) (k : Key) : Level σ :=
  (delStep l k).2

/-- The precondition under which the error-wrapping traversals are total:
the level never reports failure status together with a nil error, on any
of the wrapped synchronous calls for the given arguments. -/
def NoSilentFailureAt {σ : Type} (l : Level σ) (k : Key) (v : Option Val) (t : Time) : Prop :=
  (putStep l k v t).1 ≠ (false, none) ∧ (delStep l k).1 ≠ (false, none) ∧
    (isPresentStep l k).1 ≠ (false, none)

/-- A backend answering every call with a fixed response and keeping its
state; used to instantiate the theorems on concrete inputs. -/
def constOps (g : Option Val × Time × Err) (p : Bool × Err) (d : Bool × Err)
    (ip : Bool × Err) : LevelOps Unit :=
  { get := fun st _ => (g, st)
    put := fun st _ _ _ => (p, st)
    del := fun st _ => (d, st)
    isPresent := fun st _ => (ip, st)
    flush := fun st => (none, st) }

/-- A level on which every call succeeds and every lookup misses. -/
def okLevel : Level Unit :=
  ⟨constOps (none, 0, none) (true, none) (true, none) (true, none), ()⟩

/-- A level on which every lookup hits with value "franzkafka" and expiry 7. -/
def hitLevel : Level Unit :=
  ⟨constOps (some "franzkafka", 7, none) (true, none) (true, none) (true, none), ()⟩

/-- A level on which every mutating call fails with a non-nil error. -/
def errLevel : Level Unit :=
  ⟨constOps (none, 0, none) (false, some "boom") (false, some "boom")
    (false, some "boom"), ()⟩

/-- A level on which every mutating call reports failure status with a nil
error: the silent-failure corner. -/
def silentFailLevel : Level Unit :=
  ⟨constOps (none, 0, none) (false, none) (false, none) (false, none), ()⟩

theorem writeThroughAux_ok {σ : Type} (k : Key) (v : Option Val) (t : Time)
    (lvls : List (Level σ)) (i : Nat) (h : ∀ l ∈ lvls, putOk l k v t) :
    writeThroughAux k v t lvls i =
      some (true, none, lvls.map (fun l => putUpd l k v t),
        ascEvents (fun j => CacheEvent.putE j k v t) i lvls.length) := by
  induction lvls generalizing i with
  | nil => simp [writeThroughAux, ascEvents]
  | cons l rest ih =>
    have hl : (putStep l k v t).1 = (true, none) := h l (List.mem_cons_self l rest)
    have hrest := ih (i + 1) (fun x hx => h x (List.mem_cons_of_mem l hx))
    simp [writeThroughAux, hl, hrest, ascEvents, putUpd]

theorem writeThroughAux_fail {σ : Type} (k : Key) (v : Option Val) (t : Time)
    (pre post : List (Level σ)) (l : Level σ) (e : String) (i : Nat)
    (hpre : ∀ x ∈ pre, putOk x k v t)
    (hl : (putStep l k v t).1.2 = some e) :
    writeThroughAux k v t (pre ++ l :: post) i =
      some (false, some (e ++ "; " ++ PutError),
        pre.map (fun x => putUpd x k v t) ++ putUpd l k v t :: post,
        ascEvents (fun j => CacheEvent.putE j k v t) i pre.length
          ++ [CacheEvent.putE (i + pre.length) k v t]) := by
  induction pre generalizing i with
  | nil =>
    simp [writeThroughAux, hl, errsBuild, PutError, ascEvents, putUpd]
  | cons x rest ih =>
    have hx : (putStep x k v t).1 = (true, none) := hpre x (List.mem_cons_self x rest)
    have hrest := ih (i + 1) (fun y hy => hpre y (List.mem_cons_of_mem x hy))
    simp only [List.cons_append, writeThroughAux, hx, Option.isSome_none,
      Bool.false_eq_true, false_or]
    simp [hrest, ascEvents, putUpd, Nat.add_assoc, Nat.add_comm 1 rest.length]

instance putOkDec {σ : Type} (l : Level σ) (k : Key) (v : Option Val) (t : Time) :
    Decidable (putOk l k v t) :=
  inferInstanceAs (Decidable ((putStep l k v t).1 = (true, none)))

instance delOkDec {σ : Type} (l : Level σ) (k : Key) : Decidable (delOk l k) :=
  inferInstanceAs (Decidable ((delStep l k).1 = (true, none)))

instance getMissDec {σ : Type} (l : Level σ) (k : Key) : Decidable (getMiss l k) :=
  inferInstanceAs (Decidable ((getStep l k).1.1 = none))

instance noSilentFailureAtDec {σ : Type} (l : Level σ) (k : Key) (v : Option Val)
    (t : Time) : Decidable (NoSilentFailureAt l k v t) :=
  inferInstanceAs (Decidable (_ ∧ _ ∧ _))

/-- Claim C1: with Write-Through, a store with a non-null key and a value
within the size bound writes to the levels sequentially from level 1 to
level N. If every level succeeds the operation returns success; the
first failing level (non-nil error, whatever its status) aborts the
operation and returns that failure wrapped with the put suffix, with the
levels already written keeping their written states, the farther levels
untouched, and no compensating call issued (no rollback). -/
theorem c1_write_through_put {σ : Type} (ca : MLCacher σ) (k : Key) (v : Option Val)
    (t : Time) (hw : ca.writePattern = WriteThrough)
    (hsize : oversize v ca.maxValSize = false) :
    ((∀ l ∈ ca.levels, putOk l k v t) →
      cacherPut ca (some k) v t =
        some (true, none, ca.levels.map (fun l => putUpd l k v t),
          ascEvents (fun j => CacheEvent.putE j k v t) 1 ca.levels.length)) ∧
    (∀ pre l post e, ca.levels = pre ++ l :: post →
      (∀ x ∈ pre, putOk x k v t) →
      (putStep l k v t).1.2 = some e →
      cacherPut ca (some k) v t =
        some (false, some (e ++ "; " ++ PutError),
          pre.map (fun x => putUpd x k v t) ++ putUpd l k v t :: post,
          ascEvents (fun j => CacheEvent.putE j k v t) 1 pre.length
            ++ [CacheEvent.putE (1 + pre.length) k v t])) := by
  constructor
  · intro h
    simp [cacherPut, hsize, hw, writeThroughAux_ok k v t ca.levels 1 h]
  · intro pre l post e hlev hpre hl
    simp [cacherPut, hsize, hw, hlev, writeThroughAux_fail k v t pre post l e 1 hpre hl]

theorem c1_write_through_put_witness :
    cacherPut (MLCacher.mk [okLevel, okLevel] 2 ReadThrough WriteThrough 100)
        (some "k") (some "v") 5 =
      some (true, none, [okLevel, okLevel],
        [CacheEvent.putE 1 "k" (some "v") 5, CacheEvent.putE 2 "k" (some "v") 5]) ∧
    cacherPut (MLCacher.mk [okLevel, errLevel] 2 ReadThrough WriteThrough 100)
        (some "k") (some "v") 5 =
      some (false, some "boom; Put error", [okLevel, errLevel],
        [CacheEvent.putE 1 "k" (some "v") 5, CacheEvent.putE 2 "k" (some "v") 5]) := by
  constructor
  · exact (c1_write_through_put _ "k" (some "v") 5 rfl (by decide)).1 (by decide)
  · exact (c1_write_through_put _ "k" (some "v") 5 rfl (by decide)).2
      [okLevel] errLevel [] "boom" rfl (by decide) rfl

/-- Claim C4: with Write-Around, a store with a non-null key and a value
within the size bound writes only to level N (the last level): the other
levels keep their states and receive no call. The operation returns
success exactly when level N's write succeeds, and a failing level N
(non-nil error) makes it return that failure wrapped with the put
suffix. -/
theorem c4_write_around_put {σ : Type} (ca : MLCacher σ) (k : Key) (v : Option Val)
    (t : Time) (fore : List (Level σ)) (l : Level σ)
    (hw : ca.writePattern = WriteAround)
    (hsize : oversize v ca.maxValSize = false)
    (hlev : ca.levels = fore ++ [l]) :
    (putOk l k v t →
      cacherPut ca (some k) v t =
        some (true, none, fore ++ [putUpd l k v t],
          [CacheEvent.putE (fore.length + 1) k v t])) ∧
    (∀ e, (putStep l k v t).1.2 = some e →
      cacherPut ca (some k) v t =
        some (false, some (e ++ "; " ++ PutError), fore ++ [putUpd l k v t],
          [CacheEvent.putE (fore.length + 1) k v t])) := by
  constructor
  · intro h
    have h' : (putStep l k v t).1 = (true, none) := h
    simp [cacherPut, hsize, hw, hlev, WriteAround, WriteThrough, List.getLast?_concat,
      List.dropLast_concat, h', putUpd]
  · intro e hl
    simp [cacherPut, hsize, hw, hlev, WriteAround, WriteThrough, List.getLast?_concat,
      List.dropLast_concat, hl, errsBuild, PutError, putUpd]

theorem c4_write_around_put_witness :
    cacherPut (MLCacher.mk [okLevel, okLevel, hitLevel] 3 ReadThrough WriteAround 100)
        (some "k") (some "v") 5 =
      some (true, none, [okLevel, okLevel, hitLevel],
        [CacheEvent.putE 3 "k" (some "v") 5]) ∧
    cacherPut (MLCacher.mk [okLevel, errLevel] 2 ReadThrough WriteAround 100)
        (some "k") (some "v") 5 =
      some (false, some "boom; Put error", [okLevel, errLevel],
        [CacheEvent.putE 2 "k" (some "v") 5]) := by
  constructor
  · exact (c4_write_around_put _ "k" (some "v") 5 [okLevel, okLevel] hitLevel rfl
      (by decide) rfl).1 (by decide)
  · exact (c4_write_around_put _ "k" (some "v") 5 [okLevel] errLevel rfl
      (by decide) rfl).2 "boom" rfl

/-- Claim C5: with Write-Back, a store with a non-null key and a value
within the size bound synchronously writes to level 1 only: it returns
success as soon as level 1's write succeeds and that level's failure
(non-nil error, wrapped with the put suffix) when it fails, and at the
moment the call returns levels 2..N keep their states and have received
no synchronous call. -/
theorem c5_write_back_put {σ : Type} (ca : MLCacher σ) (k : Key) (v : Option Val)
    (t : Time) (l : Level σ) (rest : List (Level σ))
    (hw : ca.writePattern = WriteBack)
    (hsize : oversize v ca.maxValSize = false)
    (hlev : ca.levels = l :: rest) :
    (putOk l k v t →
      cacherPut ca (some k) v t =
        some (true, none, putUpd l k v t :: rest, [CacheEvent.putE 1 k v t])) ∧
    (∀ e, (putStep l k v t).1.2 = some e →
      cacherPut ca (some k) v t =
        some (false, some (e ++ "; " ++ PutError), putUpd l k v t :: rest,
          [CacheEvent.putE 1 k v t])) := by
  constructor
  · intro h
    have h' : (putStep l k v t).1 = (true, none) := h
    simp [cacherPut, hsize, hw, hlev, WriteBack, WriteThrough, WriteAround, h', putUpd]
  · intro e hl
    simp [cacherPut, hsize, hw, hlev, WriteBack, WriteThrough, WriteAround, hl,
      errsBuild, PutError, putUpd]

theorem c5_write_back_put_witness :
    cacherPut (MLCacher.mk [okLevel, okLevel, okLevel] 3 ReadThrough WriteBack 100)
        (some "k") (some "v") 5 =
      some (true, none, [okLevel, okLevel, okLevel], [CacheEvent.putE 1 "k" (some "v") 5]) ∧
    cacherPut (MLCacher.mk [errLevel, okLevel] 2 ReadThrough WriteBack 100)
        (some "k") (some "v") 5 =
      some (false, some "boom; Put error", [errLevel, okLevel],
        [CacheEvent.putE 1 "k" (some "v") 5]) := by
  constructor
  · exact (c5_write_back_put _ "k" (some "v") 5 okLevel [okLevel, okLevel] rfl
      (by decide) rfl).1 (by decide)
  · exact (c5_write_back_put _ "k" (some "v") 5 errLevel [okLevel] rfl
      (by decide) rfl).2 "boom" rfl

/-- Claim C6: for every write pattern (in or outside the enum), a store
with a nil key returns the put failure immediately, and a store with an
oversized value returns the size-bound failure immediately; in both
cases no level receives a call and every level's state is unchanged. -/
theorem c6_put_input_checks {σ : Type} (ca : MLCacher σ) (v : Option Val) (t : Time) :
    (cacherPut ca none v t = some (false, some PutError, ca.levels, [])) ∧
    (∀ k x, v = some x → ca.maxValSize < (x.length : Int) →
      cacherPut ca (some k) v t =
        some (false, some MaxValLenExceeded, ca.levels, [])) := by
  constructor
  · simp [cacherPut, errsNew, PutError]
  · intro k x hv hlen
    subst hv
    simp [cacherPut, oversize, hlen, errsNew, MaxValLenExceeded]

theorem c6_put_input_checks_witness :
    cacherPut (MLCacher.mk [okLevel] 1 ReadThrough WriteThrough 3) none (some "v") 5 =
      some (false, some PutError, [okLevel], []) ∧
    cacherPut (MLCacher.mk [okLevel] 1 ReadThrough WriteThrough 3)
        (some "k") (some "abcd") 5 =
      some (false, some MaxValLenExceeded, [okLevel], []) := by
  refine ⟨(c6_put_input_checks _ (some "v") 5).1, ?_⟩
  exact (c6_put_input_checks _ (some "abcd") 5).2 "k" "abcd" rfl (by decide)

theorem delAuxRev_ok {σ : Type} (k : Key) (lvls : List (Level σ)) (i : Nat)
    (h : ∀ l ∈ lvls, delOk l k) :
    delAuxRev k lvls i =
      some (true, none, lvls.map (fun l => delUpd l k),
        descEvents (fun j => CacheEvent.delE j k) i lvls.length) := by
  induction lvls generalizing i with
  | nil => simp [delAuxRev, descEvents]
  | cons l rest ih =>
    have hl : (delStep l k).1 = (true, none) := h l (List.mem_cons_self l rest)
    have hrest := ih (i - 1) (fun x hx => h x (List.mem_cons_of_mem l hx))
    simp [delAuxRev, hl, hrest, descEvents, delUpd]

theorem delAuxRev_fail {σ : Type} (k : Key) (a b : List (Level σ)) (l : Level σ)
    (e : String) (i : Nat)
    (ha : ∀ x ∈ a, delOk x k)
    (hl : (delStep l k).1.2 = some e) :
    delAuxRev k (a ++ l :: b) i =
      some (false, some (e ++ "; " ++ DelError),
        a.map (fun x => delUpd x k) ++ delUpd l k :: b,
        descEvents (fun j => CacheEvent.delE j k) i a.length
          ++ [CacheEvent.delE (i - a.length) k]) := by
  induction a generalizing i with
  | nil => simp [delAuxRev, hl, errsBuild, DelError, descEvents, delUpd]
  | cons x rest ih =>
    have hx : (delStep x k).1 = (true, none) := ha x (List.mem_cons_self x rest)
    have hrest := ih (i - 1) (fun y hy => ha y (List.mem_cons_of_mem x hy))
    have hidx : i - 1 - rest.length = i - (rest.length + 1) := by omega
    simp only [List.cons_append, delAuxRev, hx, Option.isSome_none, Bool.false_eq_true,
      false_or]
    simp [hrest, descEvents, delUpd, hidx]

/-- Claim C9: a delete with a non-null key traverses the chain in reverse,
from level N down to level 1, deleting sequentially; if every level
succeeds it returns success, and the first failing level (non-nil error,
whatever its status) aborts the operation and returns that failure
wrapped with the del suffix — the farther levels keep their post-delete
states, the nearer levels are untouched and no further call is issued
(no rollback, no retry). -/
theorem c9_del_reverse {σ : Type} (ca : MLCacher σ) (k : Key) :
    ((∀ l ∈ ca.levels, delOk l k) →
      cacherDel ca (some k) =
        some (true, none, ca.levels.map (fun l => delUpd l k),
          descEvents (fun j => CacheEvent.delE j k) ca.levels.length ca.levels.length)) ∧
    (∀ pre l post e, ca.levels = pre ++ l :: post →
      (∀ x ∈ post, delOk x k) →
      (delStep l k).1.2 = some e →
      cacherDel ca (some k) =
        some (false, some (e ++ "; " ++ DelError),
          pre ++ delUpd l k :: post.map (fun x => delUpd x k),
          descEvents (fun j => CacheEvent.delE j k) ca.levels.length post.length
            ++ [CacheEvent.delE (ca.levels.length - post.length) k])) := by
  constructor
  · intro h
    have hrev : ∀ l ∈ ca.levels.reverse, delOk l k := by
      intro l hl
      exact h l (List.mem_reverse.mp hl)
    simp [cacherDel, delAuxRev_ok k ca.levels.reverse ca.levels.length hrev,
      List.map_reverse]
  · intro pre l post e hlev hpost hl
    have hrev : ∀ x ∈ post.reverse, delOk x k := by
      intro x hx
      exact hpost x (List.mem_reverse.mp hx)
    have hsplit : ca.levels.reverse = post.reverse ++ l :: pre.reverse := by
      simp [hlev]
    have hfail := delAuxRev_fail k post.reverse pre.reverse l e ca.levels.length hrev hl
    simp [cacherDel, hsplit, hfail, List.map_reverse, List.reverse_append]

theorem c9_del_reverse_witness :
    cacherDel (MLCacher.mk [okLevel, okLevel] 2 ReadThrough WriteThrough 100) (some "k") =
      some (true, none, [okLevel, okLevel],
        [CacheEvent.delE 2 "k", CacheEvent.delE 1 "k"]) ∧
    cacherDel (MLCacher.mk [errLevel, okLevel] 2 ReadThrough WriteThrough 100) (some "k") =
      some (false, some "boom; Del error", [errLevel, okLevel],
        [CacheEvent.delE 2 "k", CacheEvent.delE 1 "k"]) := by
  constructor
  · exact (c9_del_reverse _ "k").1 (by decide)
  · exact (c9_del_reverse _ "k").2 [] errLevel [okLevel] "boom" rfl (by decide) rfl

theorem backfillRev_ok {σ : Type} (k : Key) (v : Val) (t : Time)
    (lvls : List (Level σ)) (i : Nat)
    (h : ∀ l ∈ lvls, putOk l k (some v) t) :
    backfillRev k v t lvls i =
      (none, lvls.map (fun l => putUpd l k (some v) t),
        descEvents (fun j => CacheEvent.putE j k (some v) t) i lvls.length) := by
  induction lvls generalizing i with
  | nil => simp [backfillRev, descEvents]
  | cons l rest ih =>
    have hl : (putStep l k (some v) t).1 = (true, none) := h l (List.mem_cons_self l rest)
    have hrest := ih (i - 1) (fun x hx => h x (List.mem_cons_of_mem l hx))
    simp [backfillRev, hl, hrest, descEvents, putUpd]

theorem backfillRev_fail {σ : Type} (k : Key) (v : Val) (t : Time)
    (a b : List (Level σ)) (m : Level σ) (i : Nat)
    (ha : ∀ x ∈ a, putOk x k (some v) t)
    (hm : ((putStep m k (some v) t).1.2).isSome ∨ (putStep m k (some v) t).1.1 = false) :
    backfillRev k v t (a ++ m :: b) i =
      (some (putStep m k (some v) t).1.2,
        a.map (fun x => putUpd x k (some v) t) ++ putUpd m k (some v) t :: b,
        descEvents (fun j => CacheEvent.putE j k (some v) t) i a.length
          ++ [CacheEvent.putE (i - a.length) k (some v) t]) := by
  induction a generalizing i with
  | nil =>
    simp only [List.nil_append, backfillRev]
    rw [if_pos hm]
    simp [descEvents, putUpd]
  | cons x rest ih =>
    have hx : (putStep x k (some v) t).1 = (true, none) := ha x (List.mem_cons_self x rest)
    have hrest := ih (i - 1) (fun y hy => ha y (List.mem_cons_of_mem x hy))
    have hidx : i - 1 - rest.length = i - (rest.length + 1) := by omega
    simp only [List.cons_append, backfillRev, hx, Option.isSome_none, Bool.false_eq_true,
      false_or]
    simp [hrest, descEvents, putUpd, hidx]

theorem readThroughAux_miss {σ : Type} (k : Key) (now : Time)
    (lvls acc : List (Level σ)) (i : Nat)
    (h : ∀ l ∈ lvls, getMiss l k) :
    readThroughAux k now acc lvls i =
      ((none, now, none), acc.reverse ++ lvls.map (fun l => getUpd l k),
        ascEvents (fun j => CacheEvent.getE j k) i lvls.length) := by
  induction lvls generalizing acc i with
  | nil => simp [readThroughAux, ascEvents]
  | cons l rest ih =>
    have hl : (getStep l k).1.1 = none := h l (List.mem_cons_self l rest)
    have hrest := ih (getUpd l k :: acc) (i + 1) (fun x hx => h x (List.mem_cons_of_mem l hx))
    simp only [getUpd] at hrest
    simp [readThroughAux, hl, hrest, ascEvents, getUpd, List.append_assoc]

theorem cacheAsideAux_miss {σ : Type} (k : Key) (now : Time)
    (lvls acc : List (Level σ)) (i : Nat)
    (h : ∀ l ∈ lvls, getMiss l k) :
    cacheAsideAux k now acc lvls i =
      ((none, now, none), acc.reverse ++ lvls.map (fun l => getUpd l k),
        ascEvents (fun j => CacheEvent.getE j k) i lvls.length) := by
  induction lvls generalizing acc i with
  | nil => simp [cacheAsideAux, ascEvents]
  | cons l rest ih =>
    have hl : (getStep l k).1.1 = none := h l (List.mem_cons_self l rest)
    have hrest := ih (getUpd l k :: acc) (i + 1) (fun x hx => h x (List.mem_cons_of_mem l hx))
    simp only [getUpd] at hrest
    simp [cacheAsideAux, hl, hrest, ascEvents, getUpd, List.append_assoc]

theorem readThroughAux_hit {σ : Type} (k : Key) (now : Time) (v : Val) (tv : Time)
    (pre post : List (Level σ)) (hit : Level σ) (acc : List (Level σ)) (i : Nat)
    (hpre : ∀ l ∈ pre, getMiss l k)
    (hhit : (getStep hit k).1.1 = some v)
    (httl : (getStep hit k).1.2.1 = tv) :
    readThroughAux k now acc (pre ++ hit :: post) i =
      (let b := backfillRev k v tv ((pre.map (fun l => getUpd l k)).reverse ++ acc)
          (i + pre.length - 1)
       ((match b.1 with
         | some err => (none, now, err)
         | none => (some v, tv, none)),
        b.2.1.reverse ++ getUpd hit k :: post,
        ascEvents (fun j => CacheEvent.getE j k) i (pre.length + 1) ++ b.2.2)) := by
  induction pre generalizing acc i with
  | nil =>
    simp [readThroughAux, hhit, httl, ascEvents, getUpd]
    split <;> simp
  | cons x rest ih =>
    have hx : (getStep x k).1.1 = none := hpre x (List.mem_cons_self x rest)
    have hrest := ih (getUpd x k :: acc) (i + 1)
      (fun l hl => hpre l (List.mem_cons_of_mem x hl))
    simp only [getUpd] at hrest
    have hidx : i + 1 + rest.length - 1 = i + rest.length := by omega
    rw [hidx] at hrest
    simp [readThroughAux, hx, hrest, ascEvents, getUpd, List.append_assoc]

/-- Claim C7: under Read-Through, a fetch with a non-null key scans levels
from 1 toward N, stops at the first level reporting a hit (the levels
past the hit receive no call and keep their states), synchronously
writes the found value into levels k-1 down to 1 in that order, and when
all backfill writes succeed it returns the found value together with its
expiry. -/
theorem c7_read_through_hit {σ : Type} (ca : MLCacher σ) (k : Key) (now : Time)
    (v : Val) (tv : Time) (pre post : List (Level σ)) (hit : Level σ)
    (hr : ca.readPattern = ReadThrough)
    (hlev : ca.levels = pre ++ hit :: post)
    (hpre : ∀ l ∈ pre, getMiss l k)
    (hhit : (getStep hit k).1.1 = some v)
    (httl : (getStep hit k).1.2.1 = tv)
    (hbf : ∀ l ∈ pre, putOk (getUpd l k) k (some v) tv) :
    cacherGet ca (some k) now =
      ((some v, tv, none),
        pre.map (fun l => putUpd (getUpd l k) k (some v) tv) ++ getUpd hit k :: post,
        ascEvents (fun j => CacheEvent.getE j k) 1 (pre.length + 1) ++
          descEvents (fun j => CacheEvent.putE j k (some v) tv) pre.length pre.length) := by
  have hscan := readThroughAux_hit k now v tv pre post hit [] 1 hpre hhit httl
  have hmem : ∀ l ∈ (pre.map (fun l => getUpd l k)).reverse, putOk l k (some v) tv := by
    intro l hl
    rw [List.mem_reverse] at hl
    obtain ⟨x, hx, rfl⟩ := List.mem_map.mp hl
    exact hbf x hx
  have hback := backfillRev_ok k v tv ((pre.map (fun l => getUpd l k)).reverse)
      pre.length hmem
  simp [cacherGet, hr, hlev, hscan, hback, List.map_reverse, List.reverse_reverse,
    List.map_map, Function.comp, Nat.add_sub_cancel_left]

theorem c7_read_through_hit_witness :
    cacherGet (MLCacher.mk [okLevel, hitLevel, okLevel] 3 ReadThrough WriteThrough 100)
        (some "k") 4 =
      ((some "franzkafka", 7, none), [okLevel, hitLevel, okLevel],
        [CacheEvent.getE 1 "k", CacheEvent.getE 2 "k",
          CacheEvent.putE 1 "k" (some "franzkafka") 7]) := by
  exact c7_read_through_hit _ "k" 4 "franzkafka" 7 [okLevel] [okLevel] hitLevel rfl rfl
    (by decide) rfl rfl (by decide)

/-- Claim C3: under Read-Through, when the fetch hits and a synchronous
backfill write into a nearer level fails or reports failure status (the
first such, scanning the nearer levels from the hit downward), the fetch
aborts and the caller receives an empty value together with the failing
backfill's error value — the already-retrieved value is not returned. -/
theorem c3_read_through_backfill_abort {σ : Type} (ca : MLCacher σ) (k : Key)
    (now : Time) (v : Val) (tv : Time) (a b post : List (Level σ)) (m hit : Level σ)
    (hr : ca.readPattern = ReadThrough)
    (hlev : ca.levels = (a ++ m :: b) ++ hit :: post)
    (hpre : ∀ l ∈ a ++ m :: b, getMiss l k)
    (hhit : (getStep hit k).1.1 = some v)
    (httl : (getStep hit k).1.2.1 = tv)
    (hb : ∀ l ∈ b, putOk (getUpd l k) k (some v) tv)
    (hm : ((putStep (getUpd m k) k (some v) tv).1.2).isSome ∨
      (putStep (getUpd m k) k (some v) tv).1.1 = false) :
    (cacherGet ca (some k) now).1 =
      (none, now, (putStep (getUpd m k) k (some v) tv).1.2) := by
  set L := a ++ m :: b with hL
  have hscan := readThroughAux_hit k now v tv L post hit [] 1 hpre hhit httl
  have hmem : ∀ l ∈ (b.map (fun l => getUpd l k)).reverse, putOk l k (some v) tv := by
    intro l hl
    rw [List.mem_reverse] at hl
    obtain ⟨x, hx, rfl⟩ := List.mem_map.mp hl
    exact hb x hx
  have hback := backfillRev_fail k v tv ((b.map (fun l => getUpd l k)).reverse)
      ((a.map (fun l => getUpd l k)).reverse) (getUpd m k) L.length hmem hm
  have hlist : ((L.map (fun l => getUpd l k)).reverse : List (Level σ)) =
      (b.map (fun l => getUpd l k)).reverse ++
        getUpd m k :: (a.map (fun l => getUpd l k)).reverse := by
    rw [hL]
    simp
  simp [cacherGet, hr, hlev, hscan, hlist, hback, Nat.add_sub_cancel_left]

theorem c3_read_through_backfill_abort_witness :
    (cacherGet (MLCacher.mk [errLevel, hitLevel] 2 ReadThrough WriteThrough 100)
        (some "k") 9).1 = (none, 9, some "boom") := by
  exact c3_read_through_backfill_abort _ "k" 9 "franzkafka" 7 [] [] [] errLevel hitLevel
    rfl rfl (by decide) rfl rfl (by decide) (Or.inl rfl)

/-- Claim C8: for both read patterns, a fetch with a non-null key in which
every level's lookup returns an empty value (whatever its error) returns
an empty result with no error: a miss is never reported as a failure. -/
theorem c8_miss_not_failure {σ : Type} (ca : MLCacher σ) (k : Key) (now : Time)
    (hmiss : ∀ l ∈ ca.levels, getMiss l k)
    (hr : ca.readPattern = ReadThrough ∨ ca.readPattern = CacheAside) :
    (cacherGet ca (some k) now).1 = (none, now, none) := by
  rcases hr with hr | hr
  · simp [cacherGet, hr, readThroughAux_miss k now ca.levels [] 1 hmiss]
  · simp [cacherGet, hr, CacheAside, ReadThrough,
      cacheAsideAux_miss k now ca.levels [] 1 hmiss]

theorem c8_miss_not_failure_witness :
    (cacherGet (MLCacher.mk [okLevel, okLevel] 2 ReadThrough WriteThrough 100)
        (some "k") 4).1 = (none, 4, none) ∧
    (cacherGet (MLCacher.mk [okLevel, okLevel] 2 CacheAside WriteThrough 100)
        (some "k") 4).1 = (none, 4, none) := by
  constructor
  · exact c8_miss_not_failure _ "k" 4 (by decide) (Or.inl rfl)
  · exact c8_miss_not_failure _ "k" 4 (by decide) (Or.inr rfl)

set_option maxRecDepth 4000 in
/-- Claim C2: the claim states that supplying more than 5 levels always
fails with the max-level-exceeded error. The Go conversion
uint8(len(caches)) truncates the count mod 256, so construction with 257
levels succeeds (producing a 1-level orchestrator from the first backend
only) and construction with 256 levels fails with the wrong error, the
no-workable-cache one. -/
theorem c2_construction_count_overflow :
    NewMultiLevelCache ReadThrough WriteThrough 100 (List.replicate 257 okLevel) =
      Except.ok (MLCacher.mk [okLevel] 1 ReadThrough WriteThrough 100) ∧
    NewMultiLevelCache ReadThrough WriteThrough 100 (List.replicate 256 okLevel) =
      Except.error NoWorkableCacheFound := by
  constructor
  · rfl
  · rfl

theorem pairFailErr {p : Bool × Err} (h : p ≠ (false, none))
    (hc : (p.2).isSome ∨ p.1 = false) : ∃ e, p.2 = some e := by
  obtain ⟨s, er⟩ := p
  cases er with
  | some e => exact ⟨e, rfl⟩
  | none =>
    rcases hc with hs | hf
    · simp at hs
    · refine absurd ?_ h
      rw [show s = false from hf]

theorem writeThroughAux_silent {σ : Type} (k : Key) (v : Option Val) (t : Time)
    (pre post : List (Level σ)) (l : Level σ) (i : Nat)
    (hpre : ∀ x ∈ pre, putOk x k v t)
    (hl : (putStep l k v t).1 = (false, none)) :
    writeThroughAux k v t (pre ++ l :: post) i = none := by
  have h1 : (putStep l k v t).1.1 = false := by rw [hl]
  have h2 : (putStep l k v t).1.2 = none := by rw [hl]
  induction pre generalizing i with
  | nil => simp [writeThroughAux, h1, h2, errsBuild, PutError]
  | cons x rest ih =>
    have hx : (putStep x k v t).1 = (true, none) := hpre x (List.mem_cons_self x rest)
    have hrest := ih (i + 1) (fun y hy => hpre y (List.mem_cons_of_mem x hy))
    simp [writeThroughAux, hx, hrest]

theorem delAuxRev_silent {σ : Type} (k : Key) (a b : List (Level σ)) (l : Level σ)
    (i : Nat) (ha : ∀ x ∈ a, delOk x k)
    (hl : (delStep l k).1 = (false, none)) :
    delAuxRev k (a ++ l :: b) i = none := by
  have h1 : (delStep l k).1.1 = false := by rw [hl]
  have h2 : (delStep l k).1.2 = none := by rw [hl]
  induction a generalizing i with
  | nil => simp [delAuxRev, h1, h2, errsBuild, DelError]
  | cons x rest ih =>
    have hx : (delStep x k).1 = (true, none) := ha x (List.mem_cons_self x rest)
    have hrest := ih (i - 1) (fun y hy => ha y (List.mem_cons_of_mem x hy))
    simp [delAuxRev, hx, hrest]

theorem writeThroughAux_total {σ : Type} (k : Key) (v : Option Val) (t : Time)
    (lvls : List (Level σ)) (i : Nat)
    (h : ∀ l ∈ lvls, (putStep l k v t).1 ≠ (false, none)) :
    writeThroughAux k v t lvls i ≠ none := by
  induction lvls generalizing i with
  | nil => simp [writeThroughAux]
  | cons l rest ih =>
    have hl := h l (List.mem_cons_self l rest)
    have hrest := ih (i + 1) (fun x hx => h x (List.mem_cons_of_mem l hx))
    by_cases hc : ((putStep l k v t).1.2).isSome ∨ (putStep l k v t).1.1 = false
    · obtain ⟨e, he⟩ := pairFailErr hl hc
      simp [writeThroughAux, if_pos hc, he, errsBuild, PutError]
    · simp [writeThroughAux, if_neg hc, Option.map_eq_none', hrest]

theorem delAuxRev_total {σ : Type} (k : Key) (lvls : List (Level σ)) (i : Nat)
    (h : ∀ l ∈ lvls, (delStep l k).1 ≠ (false, none)) :
    delAuxRev k lvls i ≠ none := by
  induction lvls generalizing i with
  | nil => simp [delAuxRev]
  | cons l rest ih =>
    have hl := h l (List.mem_cons_self l rest)
    have hrest := ih (i - 1) (fun x hx => h x (List.mem_cons_of_mem l hx))
    by_cases hc : ((delStep l k).1.2).isSome ∨ (delStep l k).1.1 = false
    · obtain ⟨e, he⟩ := pairFailErr hl hc
      simp [delAuxRev, if_pos hc, he, errsBuild, DelError]
    · simp [delAuxRev, if_neg hc, Option.map_eq_none', hrest]

/-- Claim C10: in every synchronous traversal that wraps a backend failure
with an operation-specific suffix (store under all three write patterns,
delete, existence-check), the wrapping step evaluates the level's
returned error: when the deciding level reports failure status together
with a nil error the operation panics (modelled as none), and under the
precondition that no level does so on the given arguments, the three
operations are total. -/
theorem c10_silent_failure_panics {σ : Type} (k : Key) (v : Option Val) (t : Time) :
    (∀ ca : MLCacher σ, ∀ pre l post, ca.writePattern = WriteThrough →
      oversize v ca.maxValSize = false → ca.levels = pre ++ l :: post →
      (∀ x ∈ pre, putOk x k v t) → (putStep l k v t).1 = (false, none) →
      cacherPut ca (some k) v t = none) ∧
    (∀ ca : MLCacher σ, ∀ fore l, ca.writePattern = WriteAround →
      oversize v ca.maxValSize = false → ca.levels = fore ++ [l] →
      (putStep l k v t).1 = (false, none) →
      cacherPut ca (some k) v t = none) ∧
    (∀ ca : MLCacher σ, ∀ l rest, ca.writePattern = WriteBack →
      oversize v ca.maxValSize = false → ca.levels = l :: rest →
      (putStep l k v t).1 = (false, none) →
      cacherPut ca (some k) v t = none) ∧
    (∀ ca : MLCacher σ, ∀ pre l post, ca.levels = pre ++ l :: post →
      (∀ x ∈ post, delOk x k) → (delStep l k).1 = (false, none) →
      cacherDel ca (some k) = none) ∧
    (∀ ca : MLCacher σ, ∀ l rest, ca.levels = l :: rest →
      (isPresentStep l k).1 = (false, none) →
      cacherIsPresent ca (some k) = none) ∧
    (∀ ca : MLCacher σ, ca.levels ≠ [] →
      (∀ l ∈ ca.levels, NoSilentFailureAt l k v t) →
      cacherPut ca (some k) v t ≠ none ∧ cacherDel ca (some k) ≠ none ∧
        cacherIsPresent ca (some k) ≠ none) := by
  refine ⟨?_, ?_, ?_, ?_, ?_, ?_⟩
  · intro ca pre l post hw hov hlev hpre hl
    simp [cacherPut, hov, hw, hlev, writeThroughAux_silent k v t pre post l 1 hpre hl]
  · intro ca fore l hw hov hlev hl
    have h1 : (putStep l k v t).1.1 = false := by rw [hl]
    have h2 : (putStep l k v t).1.2 = none := by rw [hl]
    simp [cacherPut, hov, hw, hlev, WriteAround, WriteThrough, List.getLast?_concat,
      h1, h2, errsBuild, PutError]
  · intro ca l rest hw hov hlev hl
    have h1 : (putStep l k v t).1.1 = false := by rw [hl]
    have h2 : (putStep l k v t).1.2 = none := by rw [hl]
    simp [cacherPut, hov, hw, hlev, WriteBack, WriteAround, WriteThrough, h1, h2,
      errsBuild, PutError]
  · intro ca pre l post hlev hpost hl
    have hrev : ∀ x ∈ post.reverse, delOk x k := by
      intro x hx
      exact hpost x (List.mem_reverse.mp hx)
    have hsplit : ca.levels.reverse = post.reverse ++ l :: pre.reverse := by
      simp [hlev]
    simp [cacherDel, hsplit,
      delAuxRev_silent k post.reverse pre.reverse l ca.levels.length hrev hl]
  · intro ca l rest hlev hl
    have h1 : (isPresentStep l k).1.1 = false := by rw [hl]
    have h2 : (isPresentStep l k).1.2 = none := by rw [hl]
    simp [cacherIsPresent, hlev, h1, h2, errsBuild, IsPresentError]
  · intro ca hne hsafe
    refine ⟨?_, ?_, ?_⟩
    · by_cases hov : oversize v ca.maxValSize = true
      · simp [cacherPut, hov]
      · by_cases h0 : ca.writePattern = WriteThrough
        · have := writeThroughAux_total k v t ca.levels 1 (fun l hl => (hsafe l hl).1)
          simp [cacherPut, hov, h0, this]
        · by_cases h1 : ca.writePattern = WriteAround
          · obtain ⟨fore, l, hlev⟩ := (List.eq_nil_or_concat ca.levels).resolve_left hne
            rw [List.concat_eq_append] at hlev
            have hmem : l ∈ ca.levels := by
              rw [hlev]
              exact List.mem_append_right _ (List.mem_singleton_self l)
            have hp := (hsafe l hmem).1
            by_cases hc : ((putStep l k v t).1.2).isSome ∨ (putStep l k v t).1.1 = false
            · obtain ⟨e, he⟩ := pairFailErr hp hc
              simp [cacherPut, hov, h1, hlev, List.getLast?_concat, if_pos hc, he,
                errsBuild, PutError, WriteAround, WriteThrough]
            · simp [cacherPut, hov, h1, hlev, List.getLast?_concat, if_neg hc,
                WriteAround, WriteThrough]
          · by_cases h2 : ca.writePattern = WriteBack
            · cases hlev : ca.levels with
              | nil => exact absurd hlev hne
              | cons l rest =>
                have hmem : l ∈ ca.levels := by
                  rw [hlev]
                  exact List.mem_cons_self l rest
                have hp := (hsafe l hmem).1
                by_cases hc : ((putStep l k v t).1.2).isSome ∨
                    (putStep l k v t).1.1 = false
                · obtain ⟨e, he⟩ := pairFailErr hp hc
                  simp [cacherPut, hov, h2, hlev, if_pos hc, he, errsBuild,
                    PutError, WriteBack, WriteAround, WriteThrough]
                · simp [cacherPut, hov, h2, hlev, if_neg hc, WriteBack, WriteAround,
                    WriteThrough]
            · simp [cacherPut, hov, h0, h1, h2]
    · have hrev : ∀ l ∈ ca.levels.reverse, (delStep l k).1 ≠ (false, none) := by
        intro l hl
        exact (hsafe l (List.mem_reverse.mp hl)).2.1
      have := delAuxRev_total k ca.levels.reverse ca.levels.length hrev
      simp [cacherDel, Option.map_eq_none', this]
    · cases hlev : ca.levels with
      | nil => exact absurd hlev hne
      | cons l rest =>
        have hmem : l ∈ ca.levels := by
          rw [hlev]
          exact List.mem_cons_self l rest
        have hp := (hsafe l hmem).2.2
        by_cases hc : ((isPresentStep l k).1.2).isSome ∨ (isPresentStep l k).1.1 = false
        · obtain ⟨e, he⟩ := pairFailErr hp hc
          simp [cacherIsPresent, hlev, if_pos hc, he, errsBuild, IsPresentError]
        · simp [cacherIsPresent, hlev, if_neg hc]

theorem c10_silent_failure_panics_witness :
    cacherPut (MLCacher.mk [silentFailLevel] 1 ReadThrough WriteThrough 100)
      (some "k") (some "v") 5 = none ∧
    cacherPut (MLCacher.mk [okLevel, silentFailLevel] 2 ReadThrough WriteAround 100)
      (some "k") (some "v") 5 = none ∧
    cacherPut (MLCacher.mk [silentFailLevel, okLevel] 2 ReadThrough WriteBack 100)
      (some "k") (some "v") 5 = none ∧
    cacherDel (MLCacher.mk [okLevel, silentFailLevel] 2 ReadThrough WriteThrough 100)
      (some "k") = none ∧
    cacherIsPresent (MLCacher.mk [silentFailLevel] 1 ReadThrough WriteThrough 100)
      (some "k") = none ∧
    cacherPut (MLCacher.mk [okLevel] 1 ReadThrough WriteThrough 100)
      (some "k") (some "v") 5 ≠ none := by
  refine ⟨?_, ?_, ?_, ?_, ?_, ?_⟩
  · exact (c10_silent_failure_panics "k" (some "v") 5).1 _ [] silentFailLevel [] rfl
      (by decide) rfl (by decide) rfl
  · exact (c10_silent_failure_panics "k" (some "v") 5).2.1 _ [okLevel] silentFailLevel
      rfl (by decide) rfl rfl
  · exact (c10_silent_failure_panics "k" (some "v") 5).2.2.1 _ silentFailLevel [okLevel]
      rfl (by decide) rfl rfl
  · exact (c10_silent_failure_panics "k" (some "v") 5).2.2.2.1 _ [okLevel]
      silentFailLevel [] rfl (by decide) rfl
  · exact (c10_silent_failure_panics "k" (some "v") 5).2.2.2.2.1 _ silentFailLevel []
      rfl rfl
  · exact ((c10_silent_failure_panics "k" (some "v") 5).2.2.2.2.2 _
      (List.cons_ne_nil _ _) (by decide)).1

end Mlcache
